import Mathlib

/-!
Verification development for the dbpp storage engine.

The engine stores fixed-size records either in memory (a vector of rows)
or on disk (a flat rows file plus a buffered write tail).  We embed the
record-level behaviour of the C++ sources shallowly: a record type is an
arbitrary Lean type, the rows file is the list of records its bytes
decode to, and byte counts are recovered by multiplying with the record
size recSize (sizeof(Record) in the source).
-/

namespace Dbpp

/-- Embeds dbpp::InMemoryTable from in-memory-table.hpp: the field rows
is the std::vector of rows in insertion order. -/
structure InMemoryTable (α : Type) where
  rows : List α
deriving DecidableEq

/-- Embeds the record-level state of dbpp::OnDiskTable from
on-disk-table.hpp: fileRows is the record sequence persisted in the rows
file, buffer is rows_write_buffer restricted to its first
rows_write_buffer_size entries. -/
structure OnDiskTable (α : Type) where
  fileRows : List α
  buffer : List α
deriving DecidableEq

/-- ENTRIES_PER_BLOCK = 4096 / sizeof(Record) (integer division), from
on-disk-table.hpp lines 22-23. -/
def entriesPerBlock (recSize : Nat) : Nat := 4096 / recSize

namespace InMemoryTable

variable {α : Type}

/-- InMemoryTable::size, returning rows.size(). -/
def size (t : InMemoryTable α) : Nat := t.rows.length

/-- InMemoryTable::clear, calling rows.clear(). -/
def clear (_t : InMemoryTable α) : InMemoryTable α := ⟨[]⟩

/-- InMemoryTable::insert, calling rows.push_back(row). -/
def insert (t : InMemoryTable α) (row : α) : InMemoryTable α := ⟨t.rows ++ [row]⟩

/-- InMemoryTable::read returns rows[index].  The std::vector subscript
operator performs no bounds check: for index >= rows.size() the access
is undefined behaviour and yields whatever the adjacent memory holds.
The extra argument mem stands for that unspecified memory content, so an
out-of-range read returns mem. -/
def read (t : InMemoryTable α) (index : Nat) (mem : α) : α :=
  t.rows.getD index mem

end InMemoryTable

namespace OnDiskTable

variable {α : Type}

/-- Byte size of the rows file: it holds fileRows.length records of
recSize bytes back to back. -/
def rowsFileSize (recSize : Nat) (t : OnDiskTable α) : Nat :=
  recSize * t.fileRows.length

/-- OnDiskTable::size: rows_file.size() / sizeof(Record)
+ rows_write_buffer_size (on-disk-table.hpp lines 184-190). -/
def size (recSize : Nat) (t : OnDiskTable α) : Nat :=
  t.rowsFileSize recSize / recSize + t.buffer.length

/-- OnDiskTable::clear: truncates the rows file to zero length and
resets rows_write_buffer_size to 0 (on-disk-table.hpp lines 195-200). -/
def clear (_t : OnDiskTable α) : OnDiskTable α := ⟨[], []⟩

/-- OnDiskTable::flush_write_buffer: appends the buffered records to the
rows file and resets the buffer size to 0 (lines 215-226). -/
def flushWriteBuffer (t : OnDiskTable α) : OnDiskTable α :=
  ⟨t.fileRows ++ t.buffer, []⟩

/-- OnDiskTable::insert: copies the record into the write buffer and, if
the buffer is now full (ENTRIES_PER_BLOCK records), flushes it
(lines 231-246). -/
def insert (recSize : Nat) (t : OnDiskTable α) (record : α) : OnDiskTable α :=
  let t1 : OnDiskTable α := ⟨t.fileRows, t.buffer ++ [record]⟩
  if t1.buffer.length = entriesPerBlock recSize then t1.flushWriteBuffer else t1

/-- Inserting a list of records one by one, in order. -/
def insertAll (recSize : Nat) (t : OnDiskTable α) (l : List α) : OnDiskTable α :=
  l.foldl (insert recSize) t

/-- OnDiskTable::read (lines 251-272): computes num_entries =
rows_file.size() / sizeof(Record); an index below it is read from the
rows file at byte offset index * sizeof(Record), an index at or above it
is read from rows_write_buffer at index - num_entries.  The buffer
access is unchecked, so past the valid entries it yields unspecified
memory, modelled by the argument mem. -/
def read (recSize : Nat) (t : OnDiskTable α) (index : Nat) (mem : α) : α :=
  let numEntries := t.rowsFileSize recSize / recSize
  if numEntries ≤ index then t.buffer.getD (index - numEntries) mem
  else t.fileRows.getD index mem

/-- The logical record sequence of the table: persisted records followed
by the buffered tail. -/
def logical (t : OnDiskTable α) : List α := t.fileRows ++ t.buffer

/-- The record sequence produced by the ROWS_FILE phase of
OnDiskTable::IteratorBase: read_next_block repeatedly reads one
BLOCK_SIZE-byte chunk (epb records) at the file cursor and emits its
records; a zero-byte read ends the phase (lines 445-534). -/
def scanFile (epb : Nat) (rows : List α) : List α :=
  if h : (rows.take epb).length = 0 then []
  else rows.take epb ++ scanFile epb (rows.drop epb)
termination_by rows.length
decreasing_by
  simp only [List.length_take, List.length_drop] at h ⊢
  omega

/-- The full record sequence produced by iterating the table: the
ROWS_FILE phase followed by the ROWS_BUFFER phase, which emits the
buffered records (or nothing, going straight to END, when the buffer is
empty). -/
def toList (recSize : Nat) (t : OnDiskTable α) : List α :=
  scanFile (entriesPerBlock recSize) t.fileRows ++ t.buffer

end OnDiskTable

/-! Table equality, from the four operator== overloads in
table-algorithms: compare sizes first; if equal, walk both scans in
lockstep and compare records until either side is exhausted. -/

/-- The comparison loop shared by all operator== overloads: while both
iterators are before the end, a differing pair of records returns
false; exhausting either side returns true. -/
def eqRows {α : Type} [DecidableEq α] : List α → List α → Bool
  | x :: xs, y :: ys => if x = y then eqRows xs ys else false
  | _, _ => true

/-- operator==(InMemoryTable, InMemoryTable). -/
def memMemEq {α : Type} [DecidableEq α] (a b : InMemoryTable α) : Bool :=
  if a.size = b.size then eqRows a.rows b.rows else false

/-- operator==(OnDiskTable, OnDiskTable). -/
def diskDiskEq {α : Type} [DecidableEq α] (recSize : Nat)
    (a b : OnDiskTable α) : Bool :=
  if a.size recSize = b.size recSize then
    eqRows (a.toList recSize) (b.toList recSize)
  else false

/-- operator==(InMemoryTable, OnDiskTable). -/
def memDiskEq {α : Type} [DecidableEq α] (recSize : Nat)
    (a : InMemoryTable α) (b : OnDiskTable α) : Bool :=
  if a.size = b.size recSize then eqRows a.rows (b.toList recSize) else false

/-- operator==(OnDiskTable, InMemoryTable): delegates to b == a. -/
def diskMemEq {α : Type} [DecidableEq α] (recSize : Nat)
    (a : OnDiskTable α) (b : InMemoryTable α) : Bool :=
  memDiskEq recSize b a

/-! The block nested loop join functions.  Each of the eight overloads
runs two nested range-for loops over its operands (iteration order is
the scan sequence of each table) and inserts map(row_a, row_b) into a
fresh output table whenever filter(row_a, row_b) holds.  The shared
loop shape is factored out; each overload fixes which operand is the
outer loop, exactly as in the source. -/

/-- The nested loop of every bnl_join overload: for each outer row, for
each inner row, insert the combined record into the accumulating output
when the filter matches. -/
def nestedLoopJoin {α β γ δ : Type} (outer : List α) (inner : List β)
    (filter : α → β → Bool) (map : α → β → γ) (ins : δ → γ → δ) (out : δ) : δ :=
  outer.foldl
    (fun o ra => inner.foldl
      (fun o2 rb => if filter ra rb then ins o2 (map ra rb) else o2) o)
    out

variable {α β γ : Type}

/-- bnl_join_into_disk(OnDiskTable a, OnDiskTable b): a is the outer
loop, b the inner loop; output is a fresh temporary on-disk table. -/
def bnlJoinIntoDiskDD (recA recB recOut : Nat) (a : OnDiskTable α)
    (b : OnDiskTable β) (filter : α → β → Bool) (map : α → β → γ) :
    OnDiskTable γ :=
  nestedLoopJoin (a.toList recA) (b.toList recB) filter map
    (OnDiskTable.insert recOut) ⟨[], []⟩

/-- bnl_join_into_disk(InMemoryTable a, InMemoryTable b): a outer, b
inner; output on disk. -/
def bnlJoinIntoDiskMM (recOut : Nat) (a : InMemoryTable α)
    (b : InMemoryTable β) (filter : α → β → Bool) (map : α → β → γ) :
    OnDiskTable γ :=
  nestedLoopJoin a.rows b.rows filter map (OnDiskTable.insert recOut) ⟨[], []⟩

/-- bnl_join_into_disk(InMemoryTable a, OnDiskTable b): the on-disk
table b is the outer loop, the in-memory table a the inner loop; the
filter and map still receive (row_a, row_b) in that order. -/
def bnlJoinIntoDiskMD (recB recOut : Nat) (a : InMemoryTable α)
    (b : OnDiskTable β) (filter : α → β → Bool) (map : α → β → γ) :
    OnDiskTable γ :=
  nestedLoopJoin (b.toList recB) a.rows (fun rb ra => filter ra rb)
    (fun rb ra => map ra rb) (OnDiskTable.insert recOut) ⟨[], []⟩

/-- bnl_join_into_disk(OnDiskTable a, InMemoryTable b): the on-disk
table a is the outer loop, b the inner loop. -/
def bnlJoinIntoDiskDM (recA recOut : Nat) (a : OnDiskTable α)
    (b : InMemoryTable β) (filter : α → β → Bool) (map : α → β → γ) :
    OnDiskTable γ :=
  nestedLoopJoin (a.toList recA) b.rows filter map
    (OnDiskTable.insert recOut) ⟨[], []⟩

/-- bnl_join_into_memory(OnDiskTable a, OnDiskTable b): a outer, b
inner; output in memory. -/
def bnlJoinIntoMemoryDD (recA recB : Nat) (a : OnDiskTable α)
    (b : OnDiskTable β) (filter : α → β → Bool) (map : α → β → γ) :
    InMemoryTable γ :=
  nestedLoopJoin (a.toList recA) (b.toList recB) filter map
    InMemoryTable.insert ⟨[]⟩

/-- bnl_join_into_memory(InMemoryTable a, InMemoryTable b): a outer, b
inner; output in memory. -/
def bnlJoinIntoMemoryMM (a : InMemoryTable α) (b : InMemoryTable β)
    (filter : α → β → Bool) (map : α → β → γ) : InMemoryTable γ :=
  nestedLoopJoin a.rows b.rows filter map InMemoryTable.insert ⟨[]⟩

/-- bnl_join_into_memory(InMemoryTable a, OnDiskTable b): the on-disk
table b is the outer loop, a the inner loop. -/
def bnlJoinIntoMemoryMD (recB : Nat) (a : InMemoryTable α)
    (b : OnDiskTable β) (filter : α → β → Bool) (map : α → β → γ) :
    InMemoryTable γ :=
  nestedLoopJoin (b.toList recB) a.rows (fun rb ra => filter ra rb)
    (fun rb ra => map ra rb) InMemoryTable.insert ⟨[]⟩

/-- bnl_join_into_memory(OnDiskTable a, InMemoryTable b): the on-disk
table a is the outer loop, b the inner loop. -/
def bnlJoinIntoMemoryDM (recA : Nat) (a : OnDiskTable α)
    (b : InMemoryTable β) (filter : α → β → Bool) (map : α → β → γ) :
    InMemoryTable γ :=
  nestedLoopJoin (a.toList recA) b.rows filter map InMemoryTable.insert ⟨[]⟩

/-- The records a join emits with a as the outer loop and b as the
inner loop: for each row of a in scan order, every matching row of b in
scan order contributes one combined record. -/
def joinEmitAB (la : List α) (lb : List β) (filter : α → β → Bool)
    (map : α → β → γ) : List γ :=
  la.flatMap fun ra => lb.flatMap fun rb =>
    if filter ra rb then [map ra rb] else []

/-- The records a join emits with b as the outer loop and a as the
inner loop. -/
def joinEmitBA (la : List α) (lb : List β) (filter : α → β → Bool)
    (map : α → β → γ) : List γ :=
  lb.flatMap fun rb => la.flatMap fun ra =>
    if filter ra rb then [map ra rb] else []

/-! Filesystem-level model of the rows file, for the destructor of
OnDiskTable.  A file records its decoded contents, whether its path is
still present on the filesystem, and whether the descriptor is open. -/

/-- An io::File handle together with the state of the file it names:
contents is the record sequence the file bytes decode to, onDisk says
whether the backing path is present on the filesystem, isOpen whether
the descriptor is still open. -/
structure FsFile (α : Type) where
  contents : List α
  onDisk : Bool
  isOpen : Bool
deriving DecidableEq

namespace FsFile

variable {α : Type}

/-- File::clear: ftruncate(fd, 0), emptying the contents; the path
stays present. -/
def clear (f : FsFile α) : FsFile α := { f with contents := [] }

/-- File::close: close(fd); the file itself is untouched. -/
def close (f : FsFile α) : FsFile α := { f with isOpen := false }

/-- File::remove: unlink(path); the backing path is gone afterwards. -/
def remove (f : FsFile α) : FsFile α := { f with onDisk := false }

end FsFile

/-- An OnDiskTable together with the filesystem state of its rows file,
as needed to state what the destructor does to the disk. -/
structure TableFs (α : Type) where
  rowsFile : FsFile α
  buffer : List α
  temp : Bool
deriving DecidableEq

/-- The destructor of OnDiskTable (on-disk-table.hpp lines 76-109) for
a table that was not moved from: flush pending writes when the table is
not temporary and the buffer is non-empty; when the table is temporary,
call rows_file.clear(), which truncates the file; finally close the
descriptor.  The backing file is never unlinked. -/
def destructTable {α : Type} (t : TableFs α) : FsFile α :=
  let afterFlush :=
    if t.temp = false ∧ 0 < t.buffer.length then
      { t.rowsFile with contents := t.rowsFile.contents ++ t.buffer }
    else t.rowsFile
  let afterTemp := if t.temp then afterFlush.clear else afterFlush
  afterTemp.close

/-! The temporary file name generation of File::create_temp. -/

/-- temp_file_chars (table-algorithms part): the 62 characters allowed
in a temporary file name. -/
def tempFileChars : List Char :=
  ("abcdefghijklmnopqrstuvwxyz"
    ++ "ABCDEFGHIJKLMNOPQRSTUVWXYZ"
    ++ "0123456789").toList

/-- sizeof(temp_file_chars): the char array holds the 62 characters
plus the terminating NUL byte of the string literal, so 63. -/
def sizeofTempFileChars : Nat := tempFileChars.length + 1

/-- The index computed for each random character of the temporary file
name: int index = rand() % sizeof(temp_file_chars) - 1.  The modulo
binds tighter than the subtraction, so for a rand() value r this is
(r mod 63) - 1, computed here over the integers; r ranges over the
non-negative values rand() can return. -/
def tempNameIndex (r : Nat) : Int :=
  (r : Int) % (sizeofTempFileChars : Int) - 1

/-! The concrete products/orders scenario of the test suite, used by
the spec as the reference join example.  C++ field types: id, price and
the order fields are int; name is char[28], modelled as a String. -/

/-- The Product record of the test scenario. -/
structure Product where
  id : Int
  name : String
  price : Int
deriving DecidableEq

/-- The Order record of the test scenario. -/
structure Order where
  id : Int
  customer_id : Int
  product_id : Int
  amount : Int
deriving DecidableEq

/-- The ProductXOrder record: the combined row of the join. -/
structure ProductXOrder where
  product_id : Int
  order_id : Int
  customer_id : Int
  amount : Int
  name : String
  price : Int
deriving DecidableEq

/-- ProductXOrder::is_match: order.product_id == product.id.  This is
the default join filter through predicates::IsMatch. -/
def ProductXOrder.isMatch (product : Product) (order : Order) : Bool :=
  order.product_id = product.id

/-- The ProductXOrder constructor from a product and an order.  This is
the default join map through predicates::Map. -/
def ProductXOrder.combine (product : Product) (order : Order) : ProductXOrder :=
  ⟨product.id, order.id, order.customer_id, order.amount,
    product.name, product.price⟩

/-- sizeof(Product): two ints and a char[28]. -/
def sizeofProduct : Nat := 36

/-- sizeof(Order): four ints. -/
def sizeofOrder : Nat := 16

/-- sizeof(ProductXOrder): four ints, a char[28] and an int. -/
def sizeofProductXOrder : Nat := 48

/-- The three products of the concrete scenario in section 8 of the
spec. -/
def scenarioProducts : List Product :=
  [⟨0, "Strawberries", 100⟩, ⟨1, "Bananas", 200⟩, ⟨5, "Watermelon", 600⟩]

/-- The two orders of the concrete scenario: order 6 for product 0,
order 0 for product 5. -/
def scenarioOrders : List Order :=
  [⟨6, 2, 0, 9⟩, ⟨0, 2, 5, 5⟩]

/-- The scenario products materialised as an on-disk table by
inserting them in order into an empty table. -/
def scenarioProductsDisk : OnDiskTable Product :=
  OnDiskTable.insertAll sizeofProduct ⟨[], []⟩ scenarioProducts

/-- The scenario orders materialised as an on-disk table. -/
def scenarioOrdersDisk : OnDiskTable Order :=
  OnDiskTable.insertAll sizeofOrder ⟨[], []⟩ scenarioOrders

/-- The two combined rows the scenario join must produce, in order:
(product 0, order 6) then (product 5, order 0). -/
def scenarioJoined : List ProductXOrder :=
  [ProductXOrder.combine ⟨0, "Strawberries", 100⟩ ⟨6, 2, 0, 9⟩,
   ProductXOrder.combine ⟨5, "Watermelon", 600⟩ ⟨0, 2, 5, 5⟩]

/-!
Theorems.
-/

namespace OnDiskTable

variable {α : Type}

theorem scanFile_nil (epb : Nat) : scanFile epb ([] : List α) = [] := by
  rw [scanFile]
  simp

theorem scanFile_eq_of_pos (epb : Nat) (hepb : 0 < epb) (rows : List α) :
    scanFile epb rows = rows := by
  have key : ∀ (n : Nat) (rows : List α), rows.length ≤ n →
      scanFile epb rows = rows := by
    intro n
    induction n with
    | zero =>
      intro rows hr
      have hrows : rows = [] := by
        cases rows with
        | nil => rfl
        | cons a l => simp at hr
      rw [hrows, scanFile_nil]
    | succ n ih =>
      intro rows hr
      rw [scanFile]
      split
      · next h0 =>
        simp only [List.length_take] at h0
        have hrows : rows = [] := by
          cases rows with
          | nil => rfl
          | cons a l => simp at h0; omega
        simp [hrows]
      · next h0 =>
        simp only [List.length_take] at h0
        rw [ih (rows.drop epb) ?_, List.take_append_drop]
        simp only [List.length_drop]
        omega
  exact key rows.length rows le_rfl

theorem scanFile_zero (rows : List α) : scanFile 0 rows = [] := by
  rw [scanFile]
  simp

theorem toList_eq_logical {recSize : Nat} (t : OnDiskTable α)
    (h : 0 < entriesPerBlock recSize ∨ t.fileRows = []) :
    t.toList recSize = t.logical := by
  rcases h with h | h
  · rw [toList, logical, scanFile_eq_of_pos _ h]
  · rw [toList, logical, h, scanFile_nil]

theorem logical_insert (recSize : Nat) (t : OnDiskTable α) (r : α) :
    (t.insert recSize r).logical = t.logical ++ [r] := by
  rw [insert]
  split <;> simp [flushWriteBuffer, logical]

theorem logical_insertAll (recSize : Nat) (t : OnDiskTable α) (l : List α) :
    (t.insertAll recSize l).logical = t.logical ++ l := by
  induction l generalizing t with
  | nil => simp [insertAll]
  | cons r l ih =>
    show ((t.insert recSize r).insertAll recSize l).logical = _
    rw [ih, logical_insert]
    simp

theorem fileRows_insert_of_epb_zero {recSize : Nat}
    (h : entriesPerBlock recSize = 0) (t : OnDiskTable α) (r : α) :
    (t.insert recSize r).fileRows = t.fileRows := by
  rw [insert]
  split
  · next h1 => simp [h] at h1
  · rfl

theorem insertAll_no_flush {recSize : Nat} :
    ∀ (l : List α) (t : OnDiskTable α),
      t.buffer.length + l.length < entriesPerBlock recSize →
      t.insertAll recSize l = ⟨t.fileRows, t.buffer ++ l⟩ := by
  intro l
  induction l with
  | nil => intro t _; simp [insertAll]
  | cons r l ih =>
    intro t h
    show (t.insert recSize r).insertAll recSize l = _
    have hins : t.insert recSize r = ⟨t.fileRows, t.buffer ++ [r]⟩ := by
      rw [insert]
      split
      · next h1 => simp at h1 h; omega
      · rfl
    rw [hins, ih]
    · simp
    · simp at h ⊢
      omega

theorem insertAll_exact_flush {recSize : Nat} :
    ∀ (l : List α) (t : OnDiskTable α), 0 < l.length →
      t.buffer.length + l.length = entriesPerBlock recSize →
      t.insertAll recSize l = ⟨t.fileRows ++ t.buffer ++ l, []⟩ := by
  intro l
  induction l with
  | nil => intro t h0 _; simp at h0
  | cons r l ih =>
    intro t _ h
    show (t.insert recSize r).insertAll recSize l = _
    cases l with
    | nil =>
      have hcond : (t.buffer ++ [r]).length = entriesPerBlock recSize := by
        simp at h ⊢
        omega
      show ((if (t.buffer ++ [r]).length = entriesPerBlock recSize then
          OnDiskTable.flushWriteBuffer ⟨t.fileRows, t.buffer ++ [r]⟩
        else ⟨t.fileRows, t.buffer ++ [r]⟩) : OnDiskTable α).insertAll recSize [] = _
      rw [if_pos hcond]
      simp [insertAll, flushWriteBuffer]
    | cons r2 l2 =>
      have hins : t.insert recSize r = ⟨t.fileRows, t.buffer ++ [r]⟩ := by
        rw [insert]
        split
        · next h1 => simp at h1 h; omega
        · rfl
      rw [hins, ih]
      · simp
      · simp
      · simp at h ⊢
        omega

end OnDiskTable

theorem rows_insert {α : Type} (t : InMemoryTable α) (r : α) :
    (t.insert r).rows = t.rows ++ [r] := rfl

theorem flatMap_fun_nil {α β : Type} (l : List α) :
    (l.flatMap fun _ => ([] : List β)) = [] := by
  induction l with
  | nil => rfl
  | cons a l ih => simpa using ih

theorem foldl_preserve {δ ε : Type} (P : δ → Prop) (g : δ → ε → δ)
    (hg : ∀ s x, P s → P (g s x)) :
    ∀ (l : List ε) (s : δ), P s → P (l.foldl g s) := by
  intro l
  induction l with
  | nil => intro s hs; exact hs
  | cons x l ih => intro s hs; exact ih _ (hg s x hs)

theorem innerLoop_abs {β γ δ : Type} (abs : δ → List γ) (ins : δ → γ → δ)
    (hins : ∀ s r, abs (ins s r) = abs s ++ [r]) (q : β → Bool) (mm : β → γ) :
    ∀ (lb : List β) (out : δ),
      abs (lb.foldl (fun o rb => if q rb then ins o (mm rb) else o) out)
        = abs out ++ lb.flatMap fun rb => if q rb then [mm rb] else [] := by
  intro lb
  induction lb with
  | nil => intro out; simp
  | cons b lb ih =>
    intro out
    simp only [List.foldl_cons, List.flatMap_cons]
    rw [ih]
    cases hq : q b with
    | false => simp
    | true => simp [hins]

theorem nestedLoopJoin_abs {α β γ δ : Type} (abs : δ → List γ) (ins : δ → γ → δ)
    (hins : ∀ s r, abs (ins s r) = abs s ++ [r])
    (filter : α → β → Bool) (map : α → β → γ) :
    ∀ (la : List α) (lb : List β) (out : δ),
      abs (nestedLoopJoin la lb filter map ins out)
        = abs out ++ joinEmitAB la lb filter map := by
  intro la
  induction la with
  | nil => intro lb out; simp [nestedLoopJoin, joinEmitAB]
  | cons a la ih =>
    intro lb out
    show abs (nestedLoopJoin la lb filter map ins
      (lb.foldl (fun o2 rb => if filter a rb then ins o2 (map a rb) else o2) out)) = _
    rw [ih, innerLoop_abs abs ins hins (filter a) (map a) lb out]
    simp [joinEmitAB]

theorem nestedLoopJoin_preserve {α β γ δ : Type} (P : δ → Prop)
    (ins : δ → γ → δ) (hins : ∀ s r, P s → P (ins s r))
    (filter : α → β → Bool) (map : α → β → γ)
    (la : List α) (lb : List β) (out : δ) (hout : P out) :
    P (nestedLoopJoin la lb filter map ins out) := by
  refine foldl_preserve P _ ?_ la out hout
  intro s x hs
  refine foldl_preserve P _ ?_ lb s hs
  intro s2 x2 hs2
  dsimp only
  split
  · exact hins s2 _ hs2
  · exact hs2

theorem toList_nestedLoopJoin_disk {α β γ : Type} (recOut : Nat)
    (filter : α → β → Bool) (map : α → β → γ) (la : List α) (lb : List β) :
    (nestedLoopJoin la lb filter map (OnDiskTable.insert recOut)
      (⟨[], []⟩ : OnDiskTable γ)).toList recOut
      = joinEmitAB la lb filter map := by
  have hlog : (nestedLoopJoin la lb filter map (OnDiskTable.insert recOut)
      (⟨[], []⟩ : OnDiskTable γ)).logical = joinEmitAB la lb filter map := by
    have h := nestedLoopJoin_abs OnDiskTable.logical (OnDiskTable.insert recOut)
      (OnDiskTable.logical_insert recOut) filter map la lb ⟨[], []⟩
    simpa [OnDiskTable.logical] using h
  rcases Nat.eq_zero_or_pos (entriesPerBlock recOut) with h0 | hpos
  · have hF : (nestedLoopJoin la lb filter map (OnDiskTable.insert recOut)
        (⟨[], []⟩ : OnDiskTable γ)).fileRows = [] := by
      refine nestedLoopJoin_preserve
        (fun (t : OnDiskTable γ) => t.fileRows = []) _ ?_ filter map la lb _ rfl
      intro s r hs
      rw [OnDiskTable.fileRows_insert_of_epb_zero h0, hs]
    rw [OnDiskTable.toList_eq_logical _ (Or.inr hF), hlog]
  · rw [OnDiskTable.toList_eq_logical _ (Or.inl hpos), hlog]

theorem joinMemMM_rows {α β γ : Type} (a : InMemoryTable α) (b : InMemoryTable β)
    (filter : α → β → Bool) (map : α → β → γ) :
    (bnlJoinIntoMemoryMM a b filter map).rows = joinEmitAB a.rows b.rows filter map := by
  have h := nestedLoopJoin_abs InMemoryTable.rows InMemoryTable.insert
    (fun _ _ => rfl) filter map a.rows b.rows ⟨[]⟩
  simpa using h

theorem joinMemDD_rows {α β γ : Type} (recA recB : Nat) (a : OnDiskTable α)
    (b : OnDiskTable β) (filter : α → β → Bool) (map : α → β → γ) :
    (bnlJoinIntoMemoryDD recA recB a b filter map).rows
      = joinEmitAB (a.toList recA) (b.toList recB) filter map := by
  have h := nestedLoopJoin_abs InMemoryTable.rows InMemoryTable.insert
    (fun _ _ => rfl) filter map (a.toList recA) (b.toList recB) ⟨[]⟩
  simpa using h

theorem joinMemMD_rows {α β γ : Type} (recB : Nat) (a : InMemoryTable α)
    (b : OnDiskTable β) (filter : α → β → Bool) (map : α → β → γ) :
    (bnlJoinIntoMemoryMD recB a b filter map).rows
      = joinEmitBA a.rows (b.toList recB) filter map := by
  have h := nestedLoopJoin_abs InMemoryTable.rows InMemoryTable.insert
    (fun _ _ => rfl) (fun rb ra => filter ra rb) (fun rb ra => map ra rb)
    (b.toList recB) a.rows ⟨[]⟩
  simpa using h

theorem joinMemDM_rows {α β γ : Type} (recA : Nat) (a : OnDiskTable α)
    (b : InMemoryTable β) (filter : α → β → Bool) (map : α → β → γ) :
    (bnlJoinIntoMemoryDM recA a b filter map).rows
      = joinEmitAB (a.toList recA) b.rows filter map := by
  have h := nestedLoopJoin_abs InMemoryTable.rows InMemoryTable.insert
    (fun _ _ => rfl) filter map (a.toList recA) b.rows ⟨[]⟩
  simpa using h

theorem joinDiskMM_toList {α β γ : Type} (recOut : Nat) (a : InMemoryTable α)
    (b : InMemoryTable β) (filter : α → β → Bool) (map : α → β → γ) :
    (bnlJoinIntoDiskMM recOut a b filter map).toList recOut
      = joinEmitAB a.rows b.rows filter map :=
  toList_nestedLoopJoin_disk recOut filter map a.rows b.rows

theorem joinDiskDD_toList {α β γ : Type} (recA recB recOut : Nat)
    (a : OnDiskTable α) (b : OnDiskTable β)
    (filter : α → β → Bool) (map : α → β → γ) :
    (bnlJoinIntoDiskDD recA recB recOut a b filter map).toList recOut
      = joinEmitAB (a.toList recA) (b.toList recB) filter map :=
  toList_nestedLoopJoin_disk recOut filter map (a.toList recA) (b.toList recB)

theorem joinDiskMD_toList {α β γ : Type} (recB recOut : Nat)
    (a : InMemoryTable α) (b : OnDiskTable β)
    (filter : α → β → Bool) (map : α → β → γ) :
    (bnlJoinIntoDiskMD recB recOut a b filter map).toList recOut
      = joinEmitBA a.rows (b.toList recB) filter map :=
  toList_nestedLoopJoin_disk recOut (fun rb ra => filter ra rb)
    (fun rb ra => map ra rb) (b.toList recB) a.rows

theorem joinDiskDM_toList {α β γ : Type} (recA recOut : Nat)
    (a : OnDiskTable α) (b : InMemoryTable β)
    (filter : α → β → Bool) (map : α → β → γ) :
    (bnlJoinIntoDiskDM recA recOut a b filter map).toList recOut
      = joinEmitAB (a.toList recA) b.rows filter map :=
  toList_nestedLoopJoin_disk recOut filter map (a.toList recA) b.rows

theorem joinEmitBA_perm {α β γ : Type} (la : List α) (lb : List β)
    (filter : α → β → Bool) (map : α → β → γ) :
    (joinEmitBA la lb filter map).Perm (joinEmitAB la lb filter map) := by
  induction la with
  | nil =>
    simp only [joinEmitAB, joinEmitBA, List.flatMap_nil]
    rw [flatMap_fun_nil]
  | cons a la ih =>
    simp only [joinEmitAB, joinEmitBA, List.flatMap_cons] at ih ⊢
    refine ((List.flatMap_append_perm lb _ _).symm).trans ?_
    exact List.Perm.append_left _ ih

/-- Claim C1: inserting a sequence of records in order into an empty
on-disk table makes the logical record sequence the persisted file rows
followed by the write buffer: size() is the number of records inserted,
and read(i) returns the i-th inserted record for every i below size(),
whether i falls in the persisted prefix (served from the rows file) or
in the buffered tail (served from the write buffer), including across
the file/buffer boundary created by automatic flushes. -/
theorem C1_round_trip {α : Type} (recSize : Nat) (hrec : 0 < recSize)
    (l : List α) (mem : α) :
    (OnDiskTable.insertAll recSize ⟨[], []⟩ l).size recSize = l.length ∧
    ∀ (i : Nat) (hi : i < l.length),
      (OnDiskTable.insertAll recSize ⟨[], []⟩ l).read recSize i mem = l[i] := by
  obtain ⟨F, B, hT⟩ : ∃ F B,
      OnDiskTable.insertAll recSize ⟨[], []⟩ l = ⟨F, B⟩ := ⟨_, _, rfl⟩
  have hFB : F ++ B = l := by
    have h := OnDiskTable.logical_insertAll recSize (⟨[], []⟩ : OnDiskTable α) l
    rw [hT] at h
    simpa [OnDiskTable.logical] using h
  subst hFB
  rw [hT]
  have hnum : OnDiskTable.rowsFileSize recSize (⟨F, B⟩ : OnDiskTable α) / recSize
      = F.length := by
    rw [OnDiskTable.rowsFileSize]
    exact Nat.mul_div_cancel_left _ hrec
  constructor
  · rw [OnDiskTable.size, hnum, List.length_append]
  · intro i hi
    rw [List.length_append] at hi
    rw [OnDiskTable.read]
    simp only [hnum]
    split
    · next hge =>
      have hiB : i - F.length < B.length := by omega
      rw [List.getD_eq_getElem?_getD, List.getElem?_eq_getElem hiB,
        Option.getD_some, List.getElem_append_right hge]
    · next hlt =>
      have hiF : i < F.length := by omega
      rw [List.getD_eq_getElem?_getD, List.getElem?_eq_getElem hiF,
        Option.getD_some, List.getElem_append_left hiF]

/-- Witness for C1 at record size 1024 (so ENTRIES_PER_BLOCK = 4): nine
records cross the flush boundary twice; size is 9 and every index reads
back the inserted record. -/
theorem C1_round_trip_witness :
    (OnDiskTable.insertAll 1024 ⟨[], []⟩ [10, 11, 12, 13, 14, 15, 16, 17, 18]).size 1024 = 9 ∧
    (OnDiskTable.insertAll 1024 ⟨[], []⟩
      [10, 11, 12, 13, 14, 15, 16, 17, 18]).read 1024 5 0 = 15 := by
  have h := C1_round_trip 1024 (by decide) [10, 11, 12, 13, 14, 15, 16, 17, 18] 0
  exact ⟨h.1, h.2 5 (by decide)⟩

/-- Claim C4: starting from an empty on-disk table, fewer than
ENTRIES_PER_BLOCK inserts leave the persisted file at size 0 with all
records in the write buffer; exactly ENTRIES_PER_BLOCK inserts flush
automatically on the last insert, leaving the persisted file at
ENTRIES_PER_BLOCK * sizeof(Record) bytes and the buffer empty. -/
theorem C4_flush_boundary {α : Type} (recSize : Nat)
    (hepb : 0 < entriesPerBlock recSize) :
    (∀ l : List α, l.length < entriesPerBlock recSize →
      OnDiskTable.insertAll recSize ⟨[], []⟩ l = ⟨[], l⟩ ∧
      (OnDiskTable.insertAll recSize ⟨[], []⟩ l).rowsFileSize recSize = 0) ∧
    (∀ l : List α, l.length = entriesPerBlock recSize →
      OnDiskTable.insertAll recSize ⟨[], []⟩ l = ⟨l, []⟩ ∧
      (OnDiskTable.insertAll recSize ⟨[], []⟩ l).rowsFileSize recSize
        = entriesPerBlock recSize * recSize) ∧
    (∀ (t : OnDiskTable α) (r : α),
      t.buffer.length + 1 = entriesPerBlock recSize →
      t.insert recSize r
        = OnDiskTable.flushWriteBuffer ⟨t.fileRows, t.buffer ++ [r]⟩) := by
  refine ⟨?_, ?_, ?_⟩
  · intro l hl
    have h := OnDiskTable.insertAll_no_flush l (⟨[], []⟩ : OnDiskTable α) (by simpa using hl)
    rw [h]
    simp [OnDiskTable.rowsFileSize]
  · intro l hl
    have h := OnDiskTable.insertAll_exact_flush l (⟨[], []⟩ : OnDiskTable α)
      (by omega) (by simpa using hl)
    rw [h]
    simp [OnDiskTable.rowsFileSize, hl, Nat.mul_comm]
  · intro t r h
    rw [OnDiskTable.insert]
    have hcond : (t.buffer ++ [r]).length = entriesPerBlock recSize := by
      simp
      omega
    simp only [hcond, if_pos]

/-- Witness for C4 at record size 2048 (ENTRIES_PER_BLOCK = 2): one
insert leaves the file empty, two inserts flush it. -/
theorem C4_flush_boundary_witness :
    OnDiskTable.insertAll 2048 ⟨[], []⟩ [7] = ⟨[], [7]⟩ ∧
    OnDiskTable.insertAll 2048 ⟨[], []⟩ [7, 8] = ⟨[7, 8], []⟩ := by
  have h := C4_flush_boundary (α := Nat) 2048 (by decide)
  exact ⟨(h.1 [7] (by decide)).1, (h.2.1 [7, 8] (by decide)).1⟩

theorem eqRows_iff {α : Type} [DecidableEq α] :
    ∀ (xs ys : List α), xs.length = ys.length →
      (eqRows xs ys = true ↔ xs = ys) := by
  intro xs
  induction xs with
  | nil =>
    intro ys h
    have hys : ys = [] := by
      cases ys with
      | nil => rfl
      | cons y ys => simp at h
    subst hys
    exact ⟨fun _ => rfl, fun _ => rfl⟩
  | cons x xs ih =>
    intro ys h
    cases ys with
    | nil => simp at h
    | cons y ys =>
      show (if x = y then eqRows xs ys else false) = true ↔ _
      split
      · next hxy =>
        subst hxy
        rw [ih ys (by simpa using h)]
        simp
      · next hxy =>
        constructor
        · intro hF
          exact absurd hF (by simp)
        · intro heq
          injection heq with h1 h2
          exact absurd h1 hxy

theorem size_eq_toList_length {α : Type} {recSize : Nat}
    (hrec : 0 < recSize) (hepb : 0 < entriesPerBlock recSize)
    (t : OnDiskTable α) :
    t.size recSize = (t.toList recSize).length := by
  rw [OnDiskTable.toList_eq_logical t (Or.inl hepb), OnDiskTable.size,
    OnDiskTable.rowsFileSize, Nat.mul_div_cancel_left _ hrec,
    OnDiskTable.logical, List.length_append]

theorem memMemEq_iff {α : Type} [DecidableEq α] (a b : InMemoryTable α) :
    memMemEq a b = true ↔ a.rows = b.rows := by
  rw [memMemEq]
  split
  · next hsz =>
    exact eqRows_iff a.rows b.rows hsz
  · next hsz =>
    constructor
    · intro hF
      exact absurd hF (by simp)
    · intro heq
      exact absurd (by rw [InMemoryTable.size, InMemoryTable.size, heq]) hsz

theorem diskDiskEq_iff {α : Type} [DecidableEq α] {recSize : Nat}
    (hrec : 0 < recSize) (hepb : 0 < entriesPerBlock recSize)
    (a b : OnDiskTable α) :
    diskDiskEq recSize a b = true ↔ a.toList recSize = b.toList recSize := by
  rw [diskDiskEq]
  split
  · next hsz =>
    refine eqRows_iff _ _ ?_
    rw [← size_eq_toList_length hrec hepb, ← size_eq_toList_length hrec hepb, hsz]
  · next hsz =>
    constructor
    · intro hF
      exact absurd hF (by simp)
    · intro heq
      refine absurd ?_ hsz
      rw [size_eq_toList_length hrec hepb, size_eq_toList_length hrec hepb, heq]

theorem memDiskEq_iff {α : Type} [DecidableEq α] {recSize : Nat}
    (hrec : 0 < recSize) (hepb : 0 < entriesPerBlock recSize)
    (a : InMemoryTable α) (b : OnDiskTable α) :
    memDiskEq recSize a b = true ↔ a.rows = b.toList recSize := by
  rw [memDiskEq]
  split
  · next hsz =>
    refine eqRows_iff _ _ ?_
    rw [show a.size = a.rows.length from rfl] at hsz
    rw [hsz, ← size_eq_toList_length hrec hepb]
  · next hsz =>
    constructor
    · intro hF
      exact absurd hF (by simp)
    · intro heq
      refine absurd ?_ hsz
      rw [InMemoryTable.size, heq, ← size_eq_toList_length hrec hepb]

theorem bool_eq_of_iff {a b : Bool} (h : (a = true) ↔ (b = true)) : a = b := by
  cases a <;> cases b <;> simp_all

/-- Claim C2: for fixed logical contents la of A and lb of B and any
filter and map, the multiset of combined records is the same across all
four storage-kind combinations of the operands and both output storage
kinds: each of the eight join results is a permutation of the records
emitted with A outer and B inner, so all eight agree as unordered
multisets. -/
theorem C2_join_storage_invariance {α β γ : Type} (recA recB recOut : Nat)
    (la : List α) (lb : List β) (filter : α → β → Bool) (map : α → β → γ)
    (ta : OnDiskTable α) (tb : OnDiskTable β)
    (ma : InMemoryTable α) (mb : InMemoryTable β)
    (hta : ta.toList recA = la) (htb : tb.toList recB = lb)
    (hma : ma.rows = la) (hmb : mb.rows = lb) :
    (bnlJoinIntoMemoryMM ma mb filter map).rows.Perm
      (joinEmitAB la lb filter map) ∧
    (bnlJoinIntoMemoryDD recA recB ta tb filter map).rows.Perm
      (joinEmitAB la lb filter map) ∧
    (bnlJoinIntoMemoryMD recB ma tb filter map).rows.Perm
      (joinEmitAB la lb filter map) ∧
    (bnlJoinIntoMemoryDM recA ta mb filter map).rows.Perm
      (joinEmitAB la lb filter map) ∧
    ((bnlJoinIntoDiskMM recOut ma mb filter map).toList recOut).Perm
      (joinEmitAB la lb filter map) ∧
    ((bnlJoinIntoDiskDD recA recB recOut ta tb filter map).toList recOut).Perm
      (joinEmitAB la lb filter map) ∧
    ((bnlJoinIntoDiskMD recB recOut ma tb filter map).toList recOut).Perm
      (joinEmitAB la lb filter map) ∧
    ((bnlJoinIntoDiskDM recA recOut ta mb filter map).toList recOut).Perm
      (joinEmitAB la lb filter map) := by
  refine ⟨?_, ?_, ?_, ?_, ?_, ?_, ?_, ?_⟩
  · rw [joinMemMM_rows, hma, hmb]
  · rw [joinMemDD_rows, hta, htb]
  · rw [joinMemMD_rows, hma, htb]
    exact joinEmitBA_perm la lb filter map
  · rw [joinMemDM_rows, hta, hmb]
  · rw [joinDiskMM_toList, hma, hmb]
  · rw [joinDiskDD_toList, hta, htb]
  · rw [joinDiskMD_toList, hma, htb]
    exact joinEmitBA_perm la lb filter map
  · rw [joinDiskDM_toList, hta, hmb]

/-- Witness for C2 on the products/orders data: the mixed
memory/disk join into memory is a permutation of the reference
emission. -/
theorem C2_join_storage_invariance_witness :
    (bnlJoinIntoMemoryMD sizeofOrder ⟨scenarioProducts⟩ scenarioOrdersDisk
      ProductXOrder.isMatch ProductXOrder.combine).rows.Perm
      (joinEmitAB scenarioProducts scenarioOrders
        ProductXOrder.isMatch ProductXOrder.combine) := by
  have hta : scenarioProductsDisk.toList sizeofProduct = scenarioProducts := by
    simp [show scenarioProductsDisk = (⟨[], scenarioProducts⟩ : OnDiskTable Product)
        from rfl,
      OnDiskTable.toList, OnDiskTable.scanFile_nil]
  have htb : scenarioOrdersDisk.toList sizeofOrder = scenarioOrders := by
    simp [show scenarioOrdersDisk = (⟨[], scenarioOrders⟩ : OnDiskTable Order)
        from rfl,
      OnDiskTable.toList, OnDiskTable.scanFile_nil]
  exact (C2_join_storage_invariance sizeofProduct sizeofOrder sizeofProductXOrder
    scenarioProducts scenarioOrders ProductXOrder.isMatch ProductXOrder.combine
    scenarioProductsDisk scenarioOrdersDisk ⟨scenarioProducts⟩ ⟨scenarioOrders⟩
    hta htb rfl rfl).2.2.1

/-- Claim C3: outer/inner loop assignment and output order.  In the
mixed-storage joins the on-disk operand is the outer loop and the
in-memory operand the inner loop; with both operands on disk or both in
memory, A is outer and B inner.  The output lists the combined records
in (outer-row index ascending, inner-row index ascending) order:
joinEmitAB is that order with A outer, joinEmitBA with B outer.  On the
concrete products/orders scenario, with products outer, every one of
the eight storage combinations yields exactly the combined rows
(product 0, order 6) then (product 5, order 0), in that order. -/
theorem C3_join_order_and_scenario :
    (∀ (α β γ : Type) (recA recB recOut : Nat)
       (ta : OnDiskTable α) (tb : OnDiskTable β)
       (ma : InMemoryTable α) (mb : InMemoryTable β)
       (filter : α → β → Bool) (map : α → β → γ),
      (bnlJoinIntoMemoryMM ma mb filter map).rows
        = joinEmitAB ma.rows mb.rows filter map ∧
      (bnlJoinIntoMemoryDD recA recB ta tb filter map).rows
        = joinEmitAB (ta.toList recA) (tb.toList recB) filter map ∧
      (bnlJoinIntoMemoryMD recB ma tb filter map).rows
        = joinEmitBA ma.rows (tb.toList recB) filter map ∧
      (bnlJoinIntoMemoryDM recA ta mb filter map).rows
        = joinEmitAB (ta.toList recA) mb.rows filter map ∧
      (bnlJoinIntoDiskMM recOut ma mb filter map).toList recOut
        = joinEmitAB ma.rows mb.rows filter map ∧
      (bnlJoinIntoDiskDD recA recB recOut ta tb filter map).toList recOut
        = joinEmitAB (ta.toList recA) (tb.toList recB) filter map ∧
      (bnlJoinIntoDiskMD recB recOut ma tb filter map).toList recOut
        = joinEmitBA ma.rows (tb.toList recB) filter map ∧
      (bnlJoinIntoDiskDM recA recOut ta mb filter map).toList recOut
        = joinEmitAB (ta.toList recA) mb.rows filter map) ∧
    (bnlJoinIntoMemoryMM ⟨scenarioProducts⟩ ⟨scenarioOrders⟩
      ProductXOrder.isMatch ProductXOrder.combine).rows = scenarioJoined ∧
    (bnlJoinIntoMemoryDD sizeofProduct sizeofOrder
      scenarioProductsDisk scenarioOrdersDisk
      ProductXOrder.isMatch ProductXOrder.combine).rows = scenarioJoined ∧
    (bnlJoinIntoMemoryMD sizeofOrder ⟨scenarioProducts⟩ scenarioOrdersDisk
      ProductXOrder.isMatch ProductXOrder.combine).rows = scenarioJoined ∧
    (bnlJoinIntoMemoryDM sizeofProduct scenarioProductsDisk ⟨scenarioOrders⟩
      ProductXOrder.isMatch ProductXOrder.combine).rows = scenarioJoined ∧
    (bnlJoinIntoDiskMM sizeofProductXOrder ⟨scenarioProducts⟩ ⟨scenarioOrders⟩
      ProductXOrder.isMatch ProductXOrder.combine).toList sizeofProductXOrder
      = scenarioJoined ∧
    (bnlJoinIntoDiskDD sizeofProduct sizeofOrder sizeofProductXOrder
      scenarioProductsDisk scenarioOrdersDisk
      ProductXOrder.isMatch ProductXOrder.combine).toList sizeofProductXOrder
      = scenarioJoined ∧
    (bnlJoinIntoDiskMD sizeofOrder sizeofProductXOrder
      ⟨scenarioProducts⟩ scenarioOrdersDisk
      ProductXOrder.isMatch ProductXOrder.combine).toList sizeofProductXOrder
      = scenarioJoined ∧
    (bnlJoinIntoDiskDM sizeofProduct sizeofProductXOrder
      scenarioProductsDisk ⟨scenarioOrders⟩
      ProductXOrder.isMatch ProductXOrder.combine).toList sizeofProductXOrder
      = scenarioJoined := by
  have hta : scenarioProductsDisk.toList sizeofProduct = scenarioProducts := by
    simp [show scenarioProductsDisk = (⟨[], scenarioProducts⟩ : OnDiskTable Product)
        from rfl,
      OnDiskTable.toList, OnDiskTable.scanFile_nil]
  have htb : scenarioOrdersDisk.toList sizeofOrder = scenarioOrders := by
    simp [show scenarioOrdersDisk = (⟨[], scenarioOrders⟩ : OnDiskTable Order)
        from rfl,
      OnDiskTable.toList, OnDiskTable.scanFile_nil]
  refine ⟨?_, ?_, ?_, ?_, ?_, ?_, ?_, ?_, ?_⟩
  · intro α β γ recA recB recOut ta tb ma mb filter map
    exact ⟨joinMemMM_rows ma mb filter map,
      joinMemDD_rows recA recB ta tb filter map,
      joinMemMD_rows recB ma tb filter map,
      joinMemDM_rows recA ta mb filter map,
      joinDiskMM_toList recOut ma mb filter map,
      joinDiskDD_toList recA recB recOut ta tb filter map,
      joinDiskMD_toList recB recOut ma tb filter map,
      joinDiskDM_toList recA recOut ta mb filter map⟩
  · rfl
  · rw [joinMemDD_rows, hta, htb]; rfl
  · rw [joinMemMD_rows, htb]; rfl
  · rw [joinMemDM_rows, hta]; rfl
  · rw [joinDiskMM_toList]; rfl
  · rw [joinDiskDD_toList, hta, htb]; rfl
  · rw [joinDiskMD_toList, htb]; rfl
  · rw [joinDiskDM_toList, hta]; rfl

/-- Claim C8: table equality is structural and symmetric across the
storage kinds.  For every pairing, the operator== overload returns true
exactly when the two tables have equal size and equal records at every
index of their scan sequences; the mixed disk/memory overload delegates
to the memory/disk one, and every overload is symmetric in its
arguments. -/
theorem C8_table_equality {α : Type} [DecidableEq α] (recSize : Nat)
    (hrec : 0 < recSize) (hepb : 0 < entriesPerBlock recSize)
    (xm ym : InMemoryTable α) (xd yd : OnDiskTable α) :
    (memMemEq xm ym = true ↔
      (xm.size = ym.size ∧ ∀ i, xm.rows.get? i = ym.rows.get? i)) ∧
    (diskDiskEq recSize xd yd = true ↔
      (xd.size recSize = yd.size recSize ∧
        ∀ i, (xd.toList recSize).get? i = (yd.toList recSize).get? i)) ∧
    (memDiskEq recSize xm yd = true ↔
      (xm.size = yd.size recSize ∧
        ∀ i, xm.rows.get? i = (yd.toList recSize).get? i)) ∧
    (diskMemEq recSize xd ym = memDiskEq recSize ym xd) ∧
    (memMemEq xm ym = memMemEq ym xm) ∧
    (diskDiskEq recSize xd yd = diskDiskEq recSize yd xd) ∧
    (memDiskEq recSize xm yd = diskMemEq recSize yd xm) := by
  refine ⟨?_, ?_, ?_, rfl, ?_, ?_, rfl⟩
  · rw [memMemEq_iff]
    constructor
    · intro h
      refine ⟨?_, fun i => by rw [h]⟩
      rw [InMemoryTable.size, InMemoryTable.size, h]
    · intro ⟨_, h2⟩
      exact List.ext_get?_iff.mpr h2
  · rw [diskDiskEq_iff hrec hepb]
    constructor
    · intro h
      refine ⟨?_, fun i => by rw [h]⟩
      rw [size_eq_toList_length hrec hepb, size_eq_toList_length hrec hepb, h]
    · intro ⟨_, h2⟩
      exact List.ext_get?_iff.mpr h2
  · rw [memDiskEq_iff hrec hepb]
    constructor
    · intro h
      refine ⟨?_, fun i => by rw [h]⟩
      rw [InMemoryTable.size, h, ← size_eq_toList_length hrec hepb]
    · intro ⟨_, h2⟩
      exact List.ext_get?_iff.mpr h2
  · refine bool_eq_of_iff ?_
    rw [memMemEq_iff, memMemEq_iff]
    exact eq_comm
  · refine bool_eq_of_iff ?_
    rw [diskDiskEq_iff hrec hepb, diskDiskEq_iff hrec hepb]
    exact eq_comm

/-- Witness for C8 at record size 1024: the products of a one-record
in-memory table and a one-record on-disk table with the same single
record compare equal, and the comparison is symmetric. -/
theorem C8_table_equality_witness :
    (memDiskEq 1024 (⟨[5]⟩ : InMemoryTable Nat) ⟨[], [5]⟩ = true ↔
      ((⟨[5]⟩ : InMemoryTable Nat).size
          = (⟨[], [5]⟩ : OnDiskTable Nat).size 1024 ∧
        ∀ i, ([5] : List Nat).get? i
          = ((⟨[], [5]⟩ : OnDiskTable Nat).toList 1024).get? i)) ∧
    memMemEq (⟨[5]⟩ : InMemoryTable Nat) ⟨[5, 6]⟩
      = memMemEq ⟨[5, 6]⟩ ⟨[5]⟩ := by
  have h := C8_table_equality 1024 (by decide) (by decide)
    (⟨[5]⟩ : InMemoryTable Nat) ⟨[5, 6]⟩ ⟨[], [6]⟩ ⟨[], [5]⟩
  exact ⟨h.2.2.1, h.2.2.2.2.1⟩

/-- Claim C9: clear() on a table of either storage kind, whatever its
prior contents, leaves size() = 0, and a second clear() produces the
same table state as the first: clear is idempotent. -/
theorem C9_clear_idempotent {α : Type} (recSize : Nat)
    (tm : InMemoryTable α) (td : OnDiskTable α) :
    tm.clear.size = 0 ∧ tm.clear.clear = tm.clear ∧
    td.clear.size recSize = 0 ∧ td.clear.clear = td.clear := by
  refine ⟨rfl, rfl, ?_, rfl⟩
  simp [OnDiskTable.clear, OnDiskTable.size, OnDiskTable.rowsFileSize]

/-- Claim C5 counterexample: destroying a concrete temporary table
whose backing file is present leaves the backing path present on disk.
The destructor truncates the rows file through File::clear and closes
the descriptor; it never unlinks the path, so the claim that the path
is no longer present afterwards fails on this input. -/
theorem C5_counterexample :
    (destructTable (⟨⟨[3], true, true⟩, [], true⟩ : TableFs Nat)).onDisk = true ∧
    ¬ (destructTable (⟨⟨[3], true, true⟩, [], true⟩ : TableFs Nat)).onDisk
        = false := by
  decide

/-- Claim C5 amended: when a temporary table is destroyed, its rows
file is truncated to empty and its descriptor closed, but the backing
path stays exactly as present as it was before: no record data
survives, yet the path is left behind as an empty file rather than
being removed. -/
theorem C5_temp_cleanup_amended {α : Type} (t : TableFs α) (h : t.temp = true) :
    (destructTable t).contents = [] ∧
    (destructTable t).onDisk = t.rowsFile.onDisk ∧
    (destructTable t).isOpen = false := by
  rw [destructTable]
  simp [h, FsFile.clear, FsFile.close]

/-- Witness for the amended C5 on a concrete temporary table holding
one persisted and one buffered record. -/
theorem C5_temp_cleanup_amended_witness :
    (destructTable (⟨⟨[3], true, true⟩, [7], true⟩ : TableFs Nat)).contents = [] ∧
    (destructTable (⟨⟨[3], true, true⟩, [7], true⟩ : TableFs Nat)).onDisk = true ∧
    (destructTable (⟨⟨[3], true, true⟩, [7], true⟩ : TableFs Nat)).isOpen
        = false := by
  have h := C5_temp_cleanup_amended (⟨⟨[3], true, true⟩, [7], true⟩ : TableFs Nat) rfl
  exact ⟨h.1, h.2.1, h.2.2⟩

/-- Claim C6 counterexample: the in-memory read is not bounds-checked.
On a one-record table, index 1 is at size(), yet read returns whatever
the memory beyond the vector holds: two different memory contents give
two different results, so the out-of-range read yields arbitrary data
instead of failing with a bounds error. -/
theorem C6_counterexample :
    (⟨[5]⟩ : InMemoryTable Nat).size ≤ 1 ∧
    InMemoryTable.read (⟨[5]⟩ : InMemoryTable Nat) 1 7 = 7 ∧
    InMemoryTable.read (⟨[5]⟩ : InMemoryTable Nat) 1 9 = 9 ∧
    (7 : Nat) ≠ 9 := by
  decide

/-- Claim C6 amended: read(index) returns the record stored at index
for every index below size(), independently of the surrounding memory;
for an index at or above size() the unchecked vector subscript hands
back the surrounding memory content instead of reporting a bounds
error. -/
theorem C6_read_amended {α : Type} (t : InMemoryTable α) (mem : α) :
    (∀ (i : Nat) (h : i < t.size), t.read i mem = t.rows[i]) ∧
    (∀ j : Nat, t.size ≤ j → t.read j mem = mem) := by
  constructor
  · intro i h
    rw [InMemoryTable.read, List.getD_eq_getElem?_getD,
      List.getElem?_eq_getElem h, Option.getD_some]
  · intro j hj
    rw [InMemoryTable.read, List.getD_eq_getElem?_getD,
      List.getElem?_eq_none hj, Option.getD_none]

/-- Witness for the amended C6 on a two-record table: index 1 reads the
stored record, index 2 reads the surrounding memory value. -/
theorem C6_read_amended_witness :
    InMemoryTable.read (⟨[5, 8]⟩ : InMemoryTable Nat) 1 7 = 8 ∧
    InMemoryTable.read (⟨[5, 8]⟩ : InMemoryTable Nat) 2 7 = 7 := by
  have h := C6_read_amended (⟨[5, 8]⟩ : InMemoryTable Nat) 7
  exact ⟨h.1 1 (by decide), h.2 2 (by decide)⟩

/-- Claim C7 counterexample: for a 4097-byte record, larger than the
4096-byte block, ENTRIES_PER_BLOCK is 0, so the claim that the
write-buffer capacity is at least 1 for every record type fails. -/
theorem C7_counterexample :
    entriesPerBlock 4097 = 0 ∧ ¬ 1 ≤ entriesPerBlock 4097 := by
  decide

/-- Claim C7 amended: ENTRIES_PER_BLOCK equals
floor(4096 / sizeof(Record)) for every record size; it is at least 1
whenever 0 < sizeof(Record) ≤ 4096, and it is 0 whenever
sizeof(Record) exceeds 4096. -/
theorem C7_entries_per_block_amended (recSize : Nat) :
    entriesPerBlock recSize = 4096 / recSize ∧
    (0 < recSize → recSize ≤ 4096 → 1 ≤ entriesPerBlock recSize) ∧
    (4096 < recSize → entriesPerBlock recSize = 0) := by
  refine ⟨rfl, ?_, ?_⟩
  · intro h1 h2
    rw [entriesPerBlock]
    exact (Nat.one_le_div_iff h1).mpr h2
  · intro h
    rw [entriesPerBlock]
    exact Nat.div_eq_of_lt h

/-- Witness for the amended C7 at record sizes 4096 and 4097. -/
theorem C7_entries_per_block_amended_witness :
    1 ≤ entriesPerBlock 4096 ∧ entriesPerBlock 4097 = 0 := by
  have h1 := C7_entries_per_block_amended 4096
  have h2 := C7_entries_per_block_amended 4097
  exact ⟨h1.2.1 (by decide) (by decide), h2.2.2 (by decide)⟩

/-- Claim C10: the character index of File::create_temp is computed as
rand() % sizeof(temp_file_chars) - 1, in which the modulo binds tighter
than the subtraction: with sizeof(temp_file_chars) = 63 the index is
(r mod 63) - 1.  Whenever rand() returns a multiple of 63, for example
0, the index is -1 and the code reads one byte before temp_file_chars,
outside the 0..61 bounds the claim asserts; every index stays below 62,
so the only violation is this off-by-one at multiples of 63. -/
theorem C10_temp_index_bug :
    sizeofTempFileChars = 63 ∧
    tempFileChars.length = 62 ∧
    tempNameIndex 0 = -1 ∧
    ¬ 0 ≤ tempNameIndex 0 ∧
    (∀ r : Nat, tempNameIndex r < 62) ∧
    (∀ r : Nat, r % 63 ≠ 0 → 0 ≤ tempNameIndex r) := by
  have hsz : sizeofTempFileChars = 63 := by rfl
  refine ⟨hsz, by rfl, by rfl, by decide, ?_, ?_⟩
  · intro r
    rw [tempNameIndex, hsz]
    have h := Int.emod_lt_of_pos (r : Int) (by decide : (0 : Int) < 63)
    omega
  · intro r hr
    rw [tempNameIndex, hsz]
    have h1 : 0 ≤ (r : Int) % 63 := Int.emod_nonneg _ (by decide)
    have h2 : (r : Int) % 63 ≠ 0 := by
      intro h0
      refine hr ?_
      have h3 : ((r % 63 : Nat) : Int) = 0 := by
        push_cast
        exact h0
      exact_mod_cast h3
    omega

end Dbpp
